import Mathlib

/-!
Shallow embedding of the jj-ffi facade (src/jj-ffi/src) over the jj engine.

The FFI layer's own logic (error re-tagging, the transaction slot, argument
checks, pattern/expression construction, the log pipeline's phase ordering and
reversal) is translated from the Rust source.  The jj_lib engine underneath is
an external collaborator; where a claim depends on its behaviour, the engine
operation is modelled from the spec and marked `Modelled from the spec:` in its
doc comment.  Machine integers carry no overflow-relevant arithmetic here;
counts are Nat, the log limit is Int as in the source (i64).
-/

/-! ## Identity codec (types/ids.rs)

Commit ids are byte strings shown as lowercase hexadecimal; change ids are
byte strings shown in the reverse-hex alphabet z..k. -/

abbrev CommitId := List Nat

abbrev ChangeId := List Nat

/-- Value of one hex digit, accepting both cases as the Rust hex crate does. -/
def hexVal (c : Char) : Option Nat :=
  if 48 ≤ c.toNat ∧ c.toNat ≤ 57 then some (c.toNat - 48)
  else if 97 ≤ c.toNat ∧ c.toNat ≤ 102 then some (c.toNat - 87)
  else if 65 ≤ c.toNat ∧ c.toNat ≤ 70 then some (c.toNat - 55)
  else none

/-- hex::decode on a character list: an even number of hex digits, else failure. -/
def hexDecodeList : List Char → Option (List Nat)
  | [] => some []
  | [_] => none
  | c1 :: c2 :: rest =>
    match hexVal c1, hexVal c2, hexDecodeList rest with
    | some h, some l, some bs => some ((16 * h + l) :: bs)
    | _, _, _ => none

/-- hex::decode of a string into bytes (CommitId::try_from on an FfiCommitId). -/
def hexDecode (s : String) : Option (List Nat) :=
  hexDecodeList s.data

/-- Lowercase hex digit for a value below 16. -/
def hexDigitChar (n : Nat) : Char :=
  if n < 10 then Char.ofNat (48 + n) else Char.ofNat (87 + n)

def hexEncodeList : List Nat → List Char
  | [] => []
  | b :: bs => hexDigitChar (b / 16 % 16) :: hexDigitChar (b % 16) :: hexEncodeList bs

/-- Lowercase hex form of a byte string (ObjectId::hex). -/
def hexEncode (bs : List Nat) : String :=
  String.mk (hexEncodeList bs)

/-- Value of one reverse-hex digit: the alphabet z..k, 'z' = 0 .. 'k' = 15. -/
def reverseHexVal (c : Char) : Option Nat :=
  if 107 ≤ c.toNat ∧ c.toNat ≤ 122 then some (122 - c.toNat) else none

def reverseHexDecodeList : List Char → Option (List Nat)
  | [] => some []
  | [_] => none
  | c1 :: c2 :: rest =>
    match reverseHexVal c1, reverseHexVal c2, reverseHexDecodeList rest with
    | some h, some l, some bs => some ((16 * h + l) :: bs)
    | _, _, _ => none

/-- ChangeId::try_from_reverse_hex on an FfiChangeId's string. -/
def reverseHexDecode (s : String) : Option (List Nat) :=
  reverseHexDecodeList s.data

def reverseHexDigitChar (n : Nat) : Char :=
  Char.ofNat (122 - n % 16)

def reverseHexEncodeList : List Nat → List Char
  | [] => []
  | b :: bs => reverseHexDigitChar (b / 16 % 16) :: reverseHexDigitChar (b % 16) :: reverseHexEncodeList bs

/-- ChangeId::reverse_hex: the z..k textual form of a change id. -/
def reverseHexEncode (bs : List Nat) : String :=
  String.mk (reverseHexEncodeList bs)

/-! ## Error taxonomy (error.rs) -/

/-- The closed tagged-union error type JjError of error.rs. -/
inductive JjError
  | Workspace (message : String)
  | Repository (message : String)
  | Backend (message : String)
  | CommitNotFound (id : String)
  | InvalidArgument (message : String)
  | Revset (message : String)
  | Transaction (message : String)
  | Git (message : String)
  | Internal (message : String)
deriving DecidableEq, Repr

/-- Constructor index: two errors are of the same kind iff their indices agree. -/
def JjError.kindIdx : JjError → Nat
  | .Workspace _ => 0
  | .Repository _ => 1
  | .Backend _ => 2
  | .CommitNotFound _ => 3
  | .InvalidArgument _ => 4
  | .Revset _ => 5
  | .Transaction _ => 6
  | .Git _ => 7
  | .Internal _ => 8

/-- Kind of the error carried by a failed result, if the result failed. -/
def errKindIdx : Except JjError α → Option Nat
  | .error e => some e.kindIdx
  | .ok _ => none

/-! ## Data model (types/) -/

structure Timestamp where
  millis_since_epoch : Int
  tz_offset_minutes : Int
deriving DecidableEq, Repr

/-- Signature data (name, email, timestamp).  The Rust Signature and
FfiSignature carry the same three fields and convert field-by-field, so one
structure stands for both. -/
structure Signature where
  name : String
  email : String
  timestamp : Timestamp
deriving DecidableEq, Repr

structure FfiCommitId where
  hex : String
deriving DecidableEq, Repr

structure FfiChangeId where
  hex : String
deriving DecidableEq, Repr

/-- An engine-side commit value (jj_lib backend commit as the facade reads it). -/
structure Commit where
  id : CommitId
  changeId : ChangeId
  description : String
  author : Signature
  committer : Signature
  parents : List CommitId
  isSigned : Bool
deriving DecidableEq, Repr

/-- The FFI commit record of types/commit.rs. -/
structure FfiCommit where
  id : FfiCommitId
  change_id : FfiChangeId
  description : String
  author : Signature
  committer : Signature
  parent_ids : List FfiCommitId
  is_signed : Bool
deriving DecidableEq, Repr

/-- FfiCommit::from(&Commit): ids are re-encoded textually, the rest copied. -/
def FfiCommit.of (c : Commit) : FfiCommit :=
  ⟨⟨hexEncode c.id⟩, ⟨reverseHexEncode c.changeId⟩, c.description, c.author,
    c.committer, c.parents.map (fun p => ⟨hexEncode p⟩), c.isSigned⟩

structure FfiNewCommit where
  parent_ids : List FfiCommitId
  description : String
  author_name : Option String
  author_email : Option String
  author_timestamp : Option Timestamp
deriving DecidableEq, Repr

structure FfiRewriteCommit where
  commit_id : FfiCommitId
  new_description : Option String
  new_parent_ids : Option (List FfiCommitId)
deriving DecidableEq, Repr

/-! ## Graph model (log.rs types) -/

inductive GraphEdgeType
  | Direct
  | Indirect
  | Missing
deriving DecidableEq, Repr

/-- An engine-side graph edge (jj_lib GraphEdge<CommitId>). -/
structure GraphEdge where
  target : CommitId
  edge_type : GraphEdgeType
deriving DecidableEq, Repr

/-- The FFI edge record, target re-encoded as hex.  GraphEdgeType converts to
FfiGraphEdgeType constructor-by-constructor, so one inductive stands for both. -/
structure FfiGraphEdge where
  target : FfiCommitId
  edge_type : GraphEdgeType
deriving DecidableEq, Repr

def FfiGraphEdge.of (e : GraphEdge) : FfiGraphEdge :=
  ⟨⟨hexEncode e.target⟩, e.edge_type⟩

structure FfiLogEntry where
  commit : FfiCommit
  edges : List FfiGraphEdge
deriving DecidableEq, Repr

structure FfiLogOptions where
  revisions : List String
  limit : Int
  reversed : Bool
deriving DecidableEq, Repr

structure FfiLogResult where
  entries : List FfiLogEntry
deriving DecidableEq, Repr

/-! ## Engine snapshot model

The jj_lib engine (store, index, view, settings, clock) is the external
collaborator of spec section 6.  A RepoModel packages the collaborator
operations the facade calls; each function field is one collaborator entry
point, left abstract except where a claim needs its spec-side contract. -/

/-- What the backend returns from writing a commit draft: the fresh
content-addressed commit id, the change id, and the committer it stamped. -/
structure WriteResult where
  newId : CommitId
  newChangeId : ChangeId
  committer : Signature
deriving DecidableEq, Repr

/-- A draft passed to the backend write: parents, description and author chosen
by the commit builder.  Tree content is out of scope (spec section 1). -/
structure CommitDraft where
  parents : List CommitId
  description : String
  author : Signature
deriving DecidableEq, Repr

/-- Modelled from the spec: the engine snapshot and its collaborators
(store `getCommit`/`writeCommit`, index `commits`/`changeIdLive`, revset
symbol table `symbols`, visible-head set `visible`, graph iterator `graphOf`,
settings author `defaultAuthor`, clock `now`, transaction durability
`durable`).  These live in jj_lib, outside src/. -/
structure RepoModel where
  commits : List CommitId
  getCommit : CommitId → Except String Commit
  writeCommit : CommitDraft → Except String WriteResult
  defaultAuthor : Signature
  now : Timestamp
  visible : List CommitId
  symbols : String → Option CommitId
  graphOf : List CommitId → List (CommitId × List GraphEdge)
  changeIdLive : ChangeId → List CommitId
  durable : String → Except String Unit

/-- Modelled from the spec: Repo::resolve_change_id (jj_lib, outside src/)
returns the set of live commit ids carrying the change id, and no resolution
when that set is empty. -/
def RepoModel.resolveChangeId (r : RepoModel) (id : ChangeId) : Option (List CommitId) :=
  match r.changeIdLive id with
  | [] => none
  | l => some l

/-! ## Transaction lifecycle (transaction.rs)

FfiTransaction holds Mutex<Option<Transaction>>.  The mutex serialises access;
this embedding models the serialised behaviour, so the state is just the
Option slot.  Lock poisoning (a separate Internal error) is not modelled. -/

/-- The live inner jj transaction: its working snapshot plus the pending-change
flag the engine reports through has_changes. -/
structure Tx where
  repo : RepoModel
  hasChanges : Bool

/-- The FfiTransaction state: the slot that is Some while the transaction is
live and None once taken by commit or discard. -/
abbrev FfiTransaction := Option Tx

/-- The error every operation returns once the slot has been taken
(with_transaction / with_transaction_mut / take_transaction in the source). -/
def alreadyFinalizedErr : JjError :=
  .Internal "Transaction has already been committed or discarded"

/-- with_transaction_mut: fail on an empty slot, else run the body on the inner
transaction, keeping whatever state the body returns. -/
def withTxMut (f : Tx → Except JjError α × Tx) : FfiTransaction → Except JjError α × FfiTransaction
  | none => (.error alreadyFinalizedErr, none)
  | some tx =>
    match f tx with
    | (a, tx2) => (a, some tx2)

/-- with_transaction: fail on an empty slot, else run a read-only body. -/
def withTx (f : Tx → Except JjError α) : FfiTransaction → Except JjError α × FfiTransaction
  | none => (.error alreadyFinalizedErr, none)
  | some tx => (f tx, some tx)

/-- CommitId::try_from over a parent id list, as the source's collect over
try_from: any failure poisons the whole conversion. -/
def decodeParentIds : List FfiCommitId → Option (List CommitId)
  | [] => some []
  | i :: is =>
    match hexDecode i.hex, decodeParentIds is with
    | some id, some ids => some (id :: ids)
    | _, _ => none

/-- The author the commit builder ends up with: the caller's signature only
when both name and email are present (the timestamp then defaulting to the
clock), otherwise the settings default (jj_lib's builder initial author,
modelled from the spec's "uses settings default"). -/
def chosenAuthor (r : RepoModel) (nc : FfiNewCommit) : Signature :=
  match nc.author_name, nc.author_email with
  | some n, some e => ⟨n, e, nc.author_timestamp.getD r.now⟩
  | _, _ => r.defaultAuthor

/-- Body of FfiTransaction::create_empty_commit: decode parents (InvalidArgument
on bad hex), reject an empty parent list, then write a commit on the empty
tree through the backend (its failure re-tagged Backend).  The engine's hex
error detail is elided from the InvalidArgument message. -/
def create_empty_commit_inner (nc : FfiNewCommit) (tx : Tx) : Except JjError FfiCommit × Tx :=
  match decodeParentIds nc.parent_ids with
  | none => (.error (.InvalidArgument "Invalid parent commit ID"), tx)
  | some parents =>
    if parents.isEmpty then
      (.error (.InvalidArgument "At least one parent commit ID is required"), tx)
    else
      match tx.repo.writeCommit ⟨parents, nc.description, chosenAuthor tx.repo nc⟩ with
      | .error e => (.error (.Backend e), tx)
      | .ok w =>
        (.ok (FfiCommit.of ⟨w.newId, w.newChangeId, nc.description, chosenAuthor tx.repo nc,
          w.committer, parents, false⟩), ⟨tx.repo, true⟩)

def FfiTransaction.create_empty_commit (nc : FfiNewCommit) :
    FfiTransaction → Except JjError FfiCommit × FfiTransaction :=
  withTxMut (create_empty_commit_inner nc)

/-- Body of FfiTransaction::create_commit_from_parent: decode the parent id,
fetch the parent from the store (Backend on failure), then write a commit on
the parent's tree with the builder's default author. -/
def create_commit_from_parent_inner (pid : FfiCommitId) (description : String) (tx : Tx) :
    Except JjError FfiCommit × Tx :=
  match hexDecode pid.hex with
  | none => (.error (.InvalidArgument "Invalid parent commit ID"), tx)
  | some parentId =>
    match tx.repo.getCommit parentId with
    | .error e => (.error (.Backend e), tx)
    | .ok _parent =>
      match tx.repo.writeCommit ⟨[parentId], description, tx.repo.defaultAuthor⟩ with
      | .error e => (.error (.Backend e), tx)
      | .ok w =>
        (.ok (FfiCommit.of ⟨w.newId, w.newChangeId, description, tx.repo.defaultAuthor,
          w.committer, [parentId], false⟩), ⟨tx.repo, true⟩)

def FfiTransaction.create_commit_from_parent (pid : FfiCommitId) (description : String) :
    FfiTransaction → Except JjError FfiCommit × FfiTransaction :=
  withTxMut (create_commit_from_parent_inner pid description)

/-- The write step shared by the rewrite branches: the rewritten commit keeps
the target's change id and author and takes the supplied description and
parents. -/
def rewrite_write (tx : Tx) (c : Commit) (description : String) (ps : List CommitId) :
    Except JjError FfiCommit × Tx :=
  match tx.repo.writeCommit ⟨ps, description, c.author⟩ with
  | .error e => (.error (.Backend e), tx)
  | .ok w =>
    (.ok (FfiCommit.of ⟨w.newId, c.changeId, description, c.author, w.committer, ps, false⟩),
      ⟨tx.repo, true⟩)

/-- Body of FfiTransaction::rewrite_commit: decode the target id, fetch it,
apply only the supplied fields, reject an explicitly empty new parent list. -/
def rewrite_commit_inner (rw : FfiRewriteCommit) (tx : Tx) : Except JjError FfiCommit × Tx :=
  match hexDecode rw.commit_id.hex with
  | none => (.error (.InvalidArgument "Invalid commit ID"), tx)
  | some cid =>
    match tx.repo.getCommit cid with
    | .error e => (.error (.Backend e), tx)
    | .ok c =>
      match rw.new_parent_ids with
      | none => rewrite_write tx c (rw.new_description.getD c.description) c.parents
      | some l =>
        match decodeParentIds l with
        | none => (.error (.InvalidArgument "Invalid parent commit ID"), tx)
        | some ps =>
          if ps.isEmpty then
            (.error (.InvalidArgument "At least one parent commit ID is required"), tx)
          else rewrite_write tx c (rw.new_description.getD c.description) ps

def FfiTransaction.rewrite_commit (rw : FfiRewriteCommit) :
    FfiTransaction → Except JjError FfiCommit × FfiTransaction :=
  withTxMut (rewrite_commit_inner rw)

/-- FfiTransaction::update_description delegates to rewrite_commit. -/
def FfiTransaction.update_description (cid : FfiCommitId) (description : String) :
    FfiTransaction → Except JjError FfiCommit × FfiTransaction :=
  FfiTransaction.rewrite_commit ⟨cid, some description, none⟩

/-- Body of FfiTransaction::abandon_commit: decode, fetch, record abandoned
(the abandoned set itself lives in the engine's mutable repo). -/
def abandon_commit_inner (cid : FfiCommitId) (tx : Tx) : Except JjError Unit × Tx :=
  match hexDecode cid.hex with
  | none => (.error (.InvalidArgument "Invalid commit ID"), tx)
  | some id =>
    match tx.repo.getCommit id with
    | .error e => (.error (.Backend e), tx)
    | .ok _ => (.ok (), ⟨tx.repo, true⟩)

def FfiTransaction.abandon_commit (cid : FfiCommitId) :
    FfiTransaction → Except JjError Unit × FfiTransaction :=
  withTxMut (abandon_commit_inner cid)

/-- FfiTransaction::has_changes, a read-only query. -/
def FfiTransaction.has_changes : FfiTransaction → Except JjError Bool × FfiTransaction :=
  withTx (fun tx => .ok tx.hasChanges)

/-- FfiTransaction::commit: take the slot first, then run the durability step;
its failure is re-tagged Transaction, and the slot stays empty either way.
The resulting readonly repo is the transaction's snapshot. -/
def FfiTransaction.commit (description : String) :
    FfiTransaction → Except JjError RepoModel × FfiTransaction
  | none => (.error alreadyFinalizedErr, none)
  | some tx =>
    match tx.repo.durable description with
    | .ok _ => (.ok tx.repo, none)
    | .error e => (.error (.Transaction e), none)

/-- FfiTransaction::discard: take the slot and drop the transaction. -/
def FfiTransaction.discard : FfiTransaction → Except JjError Unit × FfiTransaction
  | none => (.error alreadyFinalizedErr, none)
  | some _ => (.ok (), none)

/-! ## Repository queries (repo.rs) -/

/-- A lowercase hex digit, the identifier alphabet of commit ids. -/
def isHexLowerChar (c : Char) : Bool :=
  (48 ≤ c.toNat && c.toNat ≤ 57) || (97 ≤ c.toNat && c.toNat ≤ 102)

/-- Modelled from the spec: HexPrefix::try_from_hex (jj_lib, outside src/)
accepts a prefix exactly when every character is in the identifier's
alphabet; odd lengths are allowed.  Validity alone matters downstream. -/
def isValidHexPfx (s : String) : Bool :=
  s.data.all isHexLowerChar

inductive PrefixResolution
  | NoMatch
  | SingleMatch (id : CommitId)
  | AmbiguousMatch
deriving DecidableEq, Repr

/-- The ids in the index whose hex form starts with the given prefix text. -/
def pfxMatches (r : RepoModel) (pfx : String) : List CommitId :=
  r.commits.filter (fun id => pfx.isPrefixOf (hexEncode id))

/-- Modelled from the spec: the Index collaborator's resolveCommitIdPrefix
(spec section 6) classifies a prefix by how many indexed ids it heads:
none, exactly one, or several. -/
def resolveCommitIdPfx (r : RepoModel) (pfx : String) : PrefixResolution :=
  match pfxMatches r pfx with
  | [] => .NoMatch
  | [id] => .SingleMatch id
  | _ => .AmbiguousMatch

/-- FfiReadonlyRepo::resolve_commit_prefix: reject an invalid prefix as
InvalidArgument, then map the index's classification onto CommitNotFound,
the singleton id list, or InvalidArgument carrying the prefix. -/
def resolveCommitPfx (r : RepoModel) (pfx : String) : Except JjError (List FfiCommitId) :=
  if isValidHexPfx pfx then
    match resolveCommitIdPfx r pfx with
    | .NoMatch => .error (.CommitNotFound pfx)
    | .SingleMatch id => .ok [⟨hexEncode id⟩]
    | .AmbiguousMatch => .error (.InvalidArgument ("Ambiguous commit prefix: " ++ pfx))
  else .error (.InvalidArgument ("Invalid hex prefix: " ++ pfx))

/-- FfiReadonlyRepo::resolve_change_id: decode the reverse-hex text
(InvalidArgument on failure), then map no-resolution onto CommitNotFound and
a resolution onto the full hex-encoded commit id list.  The index I/O error
branch (re-tagged Internal in the source) does not arise for the pure index
model. -/
def resolve_change_id (r : RepoModel) (cid : FfiChangeId) : Except JjError (List FfiCommitId) :=
  match reverseHexDecode cid.hex with
  | none => .error (.InvalidArgument ("Invalid change ID: " ++ cid.hex))
  | some id =>
    match r.resolveChangeId id with
    | some ids => .ok (ids.map (fun i => ⟨hexEncode i⟩))
    | none => .error (.CommitNotFound cid.hex)

/-! ## Revset engine (revset.rs, log.rs)

The grammar, symbol resolution and evaluation are the external collaborator of
spec section 6; the facade only sequences them and re-tags their errors. -/

/-- The textual expression layer (jj_lib RevsetExpression as the facade builds
it: parsed expressions, the all-visible default, the none fallback, union). -/
inductive RevsetExpression
  | all
  | emptySet
  | symbol (s : String)
  | union (a b : RevsetExpression)
deriving DecidableEq, Repr

/-- The resolved expression layer (symbols already looked up). -/
inductive ResolvedExpression
  | all
  | emptySet
  | commitRef (id : CommitId)
  | union (a b : ResolvedExpression)
deriving DecidableEq, Repr

/-- Modelled from the spec: the three-phase revset collaborator contract of
spec section 6 — parse, resolve, evaluate, each independently fallible. -/
structure RevsetEngine where
  parse : String → Except String RevsetExpression
  resolve : RevsetExpression → Except String ResolvedExpression
  evaluate : ResolvedExpression → Except String (List CommitId)

/-- evaluate_revset of revset.rs: parse, then resolve, then evaluate, each
failure re-tagged Revset, the surviving ids hex-encoded. -/
def evaluate_revset (eng : RevsetEngine) (s : String) : Except JjError (List FfiCommitId) :=
  match eng.parse s with
  | .error m => .error (.Revset m)
  | .ok e =>
    match eng.resolve e with
    | .error m => .error (.Revset m)
    | .ok re =>
      match eng.evaluate re with
      | .error m => .error (.Revset m)
      | .ok ids => .ok (ids.map (fun i => ⟨hexEncode i⟩))

/-- The source's reduce(|a, b| a.union(&b)) over an already-parsed list. -/
def unionReduce (e : RevsetExpression) : List RevsetExpression → RevsetExpression
  | [] => e
  | f :: fs => unionReduce (.union e f) fs

/-- Parsing each supplied revision string in order, short-circuiting on the
first failure, as the source's for-loop over options.revisions. -/
def parseAllRevs (eng : RevsetEngine) : List String → Except JjError (List RevsetExpression)
  | [] => .ok []
  | s :: ss =>
    match eng.parse s with
    | .error m => .error (.Revset m)
    | .ok e =>
      match parseAllRevs eng ss with
      | .error er => .error er
      | .ok es => .ok (e :: es)

/-- evaluate_log's expression construction: an empty revision list yields the
all-visible default, otherwise the parsed expressions are folded by union in
order (the none fallback of unwrap_or_else is unreachable for a nonempty
list). -/
def buildRevsetExpr (eng : RevsetEngine) (revs : List String) : Except JjError RevsetExpression :=
  if revs.isEmpty then .ok .all
  else
    match parseAllRevs eng revs with
    | .error e => .error e
    | .ok [] => .ok .emptySet
    | .ok (e :: es) => .ok (unionReduce e es)

/-! ## Log pipeline (log.rs) -/

/-- Result-collecting traversal, the source's collect over an iterator of
Results: the first failure aborts the whole build. -/
def collectE (f : α → Except JjError β) : List α → Except JjError (List β)
  | [] => .ok []
  | x :: xs =>
    match f x with
    | .error e => .error e
    | .ok y =>
      match collectE f xs with
      | .error e => .error e
      | .ok ys => .ok (y :: ys)

/-- One log entry: fetch the commit from the store (Backend on failure) and
convert the edges. -/
def entryOf (r : RepoModel) (p : CommitId × List GraphEdge) : Except JjError FfiLogEntry :=
  match r.getCommit p.1 with
  | .error e => .error (.Backend e)
  | .ok c => .ok ⟨FfiCommit.of c, p.2.map FfiGraphEdge.of⟩

/-- Edges of the inverted graph pointing out of x: one for every edge of the
original graph whose target is x, now aimed at that edge's source. -/
def invertedEdges (g : List (CommitId × List GraphEdge)) (x : CommitId) : List GraphEdge :=
  g.foldr (fun p acc => ((p.2.filter (fun e => e.target == x)).map (fun e => ⟨p.1, e.edge_type⟩)) ++ acc) []

/-- Modelled from the spec: jj_lib reverse_graph (outside src/) materialises
the grouped sequence and inverts it end to end, node order reversed and
parent/child edge direction flipped. -/
def reverseGraph (g : List (CommitId × List GraphEdge)) : List (CommitId × List GraphEdge) :=
  (g.reverse).map (fun p => (p.1, invertedEdges g p.1))

/-- The source's limit handling: a negative i64 means usize::MAX, which takes
everything; otherwise take that many grouped entries. -/
def applyLimit (l : Int) (xs : List α) : List α :=
  if l < 0 then xs else xs.take l.toNat

/-- The tail of evaluate_log after the expression has been built: resolve and
evaluate (failures re-tagged Revset), group the graph, apply the limit, then
either materialise-and-invert (reversed) or stream in grouped order. -/
def evaluate_log_expr (eng : RevsetEngine) (r : RepoModel) (lim : Int) (rev : Bool)
    (expr : RevsetExpression) : Except JjError FfiLogResult :=
  match eng.resolve expr with
  | .error m => .error (.Revset m)
  | .ok rex =>
    match eng.evaluate rex with
    | .error m => .error (.Revset m)
    | .ok ids =>
      let g := applyLimit lim (r.graphOf ids)
      if rev then
        match collectE (entryOf r) (reverseGraph g) with
        | .error e => .error e
        | .ok es => .ok ⟨es⟩
      else
        match collectE (entryOf r) g with
        | .error e => .error e
        | .ok es => .ok ⟨es⟩

/-- evaluate_log of log.rs. -/
def evaluate_log (eng : RevsetEngine) (r : RepoModel) (opts : FfiLogOptions) :
    Except JjError FfiLogResult :=
  match buildRevsetExpr eng opts.revisions with
  | .error e => .error e
  | .ok expr => evaluate_log_expr eng r opts.limit opts.reversed expr

/-! ## A concrete grammar instance (Modelled from the spec)

Scenario C of the spec relates the textual form "a | b" to the union of its
parts, so the collaborator grammar needs one executable instance: symbols
separated by the union bar, surrounding blanks ignored. -/

def isBlankChar (c : Char) : Bool :=
  c == ' ' || c == '\t' || c == '\n' || c == '\r'

def trimChars (l : List Char) : List Char :=
  ((l.dropWhile isBlankChar).reverse.dropWhile isBlankChar).reverse

/-- Split a character list at every union bar. -/
def splitBar : List Char → List (List Char)
  | [] => [[]]
  | c :: cs =>
    if c = '|' then [] :: splitBar cs
    else
      match splitBar cs with
      | [] => [[c]]
      | p :: ps => (c :: p) :: ps

/-- Modelled from the spec: the grammar collaborator's parse — bar-separated
symbols, each nonempty after trimming, unioned left to right. -/
def parseModel (s : String) : Except String RevsetExpression :=
  let parts := (splitBar s.data).map trimChars
  if parts.any (fun t => t.isEmpty) then .error "syntax error"
  else
    match parts.map (fun t => RevsetExpression.symbol (String.mk t)) with
    | [] => .error "syntax error"
    | e :: es => .ok (unionReduce e es)

/-- Modelled from the spec: the resolve phase looks every symbol up in the
snapshot's symbol table and fails on the first unknown one. -/
def resolveModel (r : RepoModel) : RevsetExpression → Except String ResolvedExpression
  | .all => .ok .all
  | .emptySet => .ok .emptySet
  | .symbol s =>
    match r.symbols s with
    | some id => .ok (.commitRef id)
    | none => .error ("symbol not found: " ++ s)
  | .union a b =>
    match resolveModel r a, resolveModel r b with
    | .ok x, .ok y => .ok (.union x y)
    | .error m, _ => .error m
    | _, .error m => .error m

/-- Modelled from the spec: the evaluate phase materialises the lazy sequence —
all visible commits for the default, set union (deduplicated, left order
first) for unions. -/
def evalModel (r : RepoModel) : ResolvedExpression → List CommitId
  | .all => r.visible
  | .emptySet => []
  | .commitRef id => [id]
  | .union a b => (evalModel r a ++ evalModel r b).eraseDups

/-- The collaborator instance evaluate_log runs against for a given snapshot. -/
def specEngine (r : RepoModel) : RevsetEngine :=
  ⟨parseModel, resolveModel r, fun rex => .ok (evalModel r rex)⟩

/-! ## Git operations (git.rs) -/

/-- The import statistics record, counts only. -/
structure FfiGitImportStats where
  abandoned_commits_count : Nat
  changed_remote_bookmarks_count : Nat
  changed_remote_tags_count : Nat
  failed_refs_count : Nat
deriving DecidableEq, Repr

/-- get_abandoned_commits_from_import: the source returns an empty vector
unconditionally (the actual abandoned commits are not stored). -/
def get_abandoned_commits_from_import (_stats : FfiGitImportStats) : List FfiCommitId :=
  []

/-- A compiled glob, identified with its matching behaviour.  Glob compilation
itself lives in the engine's string-pattern collaborator. -/
def Glob := String → Bool

/-- A branch string pattern: exact text or a compiled glob (jj_lib
StringPattern as fetch builds it). -/
inductive StringPatternM
  | exact (s : String)
  | patt (g : Glob)

/-- Modelled from the spec: what a branch pattern selects — exact patterns by
string equality, glob patterns by the compiled matcher. -/
def StringPatternM.sel : StringPatternM → String → Bool
  | .exact s, n => s == n
  | .patt g, n => g n

/-- The branch expression fetch builds (jj_lib StringExpression as used there:
the all-branches default, or the union of the per-pattern selections). -/
inductive StringExpr
  | all
  | unionAll (ps : List StringPatternM)

/-- Modelled from the spec: what a branch expression selects — every branch
for the default, any constituent pattern's selection for a union. -/
def StringExpr.sel : StringExpr → String → Bool
  | .all, _ => true
  | .unionAll ps, n => ps.any (fun p => p.sel n)

/-- One pattern of FfiGitTransaction::fetch: a pattern containing the wildcard
token is compiled as a glob, falling back to exact text when compilation
fails; a pattern without it is exact. -/
def toPatternM (gc : String → Option Glob) (p : String) : StringPatternM :=
  if p.data.contains '*' then
    match gc p with
    | some g => .patt g
    | none => .exact p
  else .exact p

/-- The branch expression construction of FfiGitTransaction::fetch: the
all-branches default for an empty list, otherwise the union of the compiled
patterns. -/
def buildBranchExpr (gc : String → Option Glob) (pats : List String) : StringExpr :=
  if pats.isEmpty then .all else .unionAll (pats.map (toPatternM gc))

/-! ## Concrete fixtures for witnesses and counterexamples -/

def sig0 : Signature := ⟨"", "", ⟨0, 0⟩⟩

/-- A snapshot whose index holds no commits and whose backend accepts writes. -/
def repoA : RepoModel :=
  ⟨[], fun _ => .error "not found", fun _ => .ok ⟨[1], [2], sig0⟩, sig0, ⟨0, 0⟩,
    [], fun _ => none, fun ids => ids.map (fun i => (i, [])), fun _ => [], fun _ => .ok ()⟩

def txA : Tx := ⟨repoA, false⟩

/-- A new-commit request whose parent is valid hex yet absent from repoA. -/
def nc0 : FfiNewCommit := ⟨[⟨"aa"⟩], "d", none, none, none⟩

/-- repoA with one indexed commit, id byte 0xaa. -/
def repoB : RepoModel :=
  ⟨[[170]], fun _ => .error "not found", fun _ => .ok ⟨[1], [2], sig0⟩, sig0, ⟨0, 0⟩,
    [], fun _ => none, fun ids => ids.map (fun i => (i, [])), fun _ => [], fun _ => .ok ()⟩

/-- A two-commit snapshot whose store serves every id and whose symbol table
knows "a" and "b". -/
def repoC : RepoModel :=
  ⟨[[1], [2]], fun c => .ok ⟨c, [0], "", sig0, sig0, [], false⟩, fun _ => .error "no",
    sig0, ⟨0, 0⟩, [[1], [2]],
    fun s => if s == "a" then some [1] else if s == "b" then some [2] else none,
    fun ids => ids.map (fun i => (i, [])), fun _ => [[1]], fun _ => .ok ()⟩

/-- An engine failing at the parse phase. -/
def engP : RevsetEngine :=
  ⟨fun _ => .error "syntax error at 1", fun _ => .ok .all, fun _ => .ok []⟩

/-- An engine failing at the resolve phase. -/
def engR : RevsetEngine :=
  ⟨fun _ => .ok .all, fun _ => .error "symbol not found", fun _ => .ok []⟩

/-- An engine failing at the evaluate phase. -/
def engE : RevsetEngine :=
  ⟨fun _ => .ok .all, fun _ => .ok .all, fun _ => .error "evaluation failed"⟩

/-- Entry construction keyed by the commit id alone: what entryOf computes
about the commit, independently of the edge annotation. -/
def entryCommit (r : RepoModel) (c : CommitId) : Except JjError FfiCommit :=
  match r.getCommit c with
  | .error e => .error (.Backend e)
  | .ok cm => .ok (FfiCommit.of cm)

/-- A concrete glob matcher for witnesses. -/
def glob0 : Glob := fun n => n == "release"

/-- A concrete glob compiler for witnesses: knows exactly the pattern "re*". -/
def gc0 : String → Option Glob := fun s => if s == "re*" then some glob0 else none

/-- The log entries repoC's two visible commits produce. -/
def entA : FfiLogEntry := ⟨⟨⟨"01"⟩, ⟨"zz"⟩, "", sig0, sig0, [], false⟩, []⟩

def entB : FfiLogEntry := ⟨⟨⟨"02"⟩, ⟨"zz"⟩, "", sig0, sig0, [], false⟩, []⟩

/-! ## Theorems -/

/-- C1: once the FfiTransaction slot has been taken by commit or discard —
commit empties it before the durability step, so even a failed commit
finalizes — every subsequent operation (create_empty_commit,
create_commit_from_parent, rewrite_commit, update_description,
abandon_commit, has_changes, commit, discard) returns the already-finalized
error, and no second finalization can succeed. -/
theorem transaction_single_finalization :
    (∀ nc, FfiTransaction.create_empty_commit nc none = (.error alreadyFinalizedErr, none)) ∧
    (∀ pid d, FfiTransaction.create_commit_from_parent pid d none = (.error alreadyFinalizedErr, none)) ∧
    (∀ rw, FfiTransaction.rewrite_commit rw none = (.error alreadyFinalizedErr, none)) ∧
    (∀ cid d, FfiTransaction.update_description cid d none = (.error alreadyFinalizedErr, none)) ∧
    (∀ cid, FfiTransaction.abandon_commit cid none = (.error alreadyFinalizedErr, none)) ∧
    (FfiTransaction.has_changes none = (.error alreadyFinalizedErr, none)) ∧
    (∀ d, FfiTransaction.commit d none = (.error alreadyFinalizedErr, none)) ∧
    (FfiTransaction.discard none = (.error alreadyFinalizedErr, none)) ∧
    (∀ d s, (FfiTransaction.commit d s).2 = none) ∧
    (∀ s, (FfiTransaction.discard s).2 = none) ∧
    (∀ d d' s, FfiTransaction.commit d' (FfiTransaction.commit d s).2 = (.error alreadyFinalizedErr, none)) ∧
    (∀ d s, FfiTransaction.commit d (FfiTransaction.discard s).2 = (.error alreadyFinalizedErr, none)) ∧
    (∀ d s, FfiTransaction.discard (FfiTransaction.commit d s).2 = (.error alreadyFinalizedErr, none)) := by
  have hc : ∀ d s, (FfiTransaction.commit d s).2 = none := by
    intro d s
    cases s with
    | none => rfl
    | some tx =>
      cases h : tx.repo.durable d <;> simp [FfiTransaction.commit, h]
  have hd : ∀ s, (FfiTransaction.discard s).2 = none := by
    intro s
    cases s <;> rfl
  refine ⟨fun _ => rfl, fun _ _ => rfl, fun _ => rfl, fun _ _ => rfl, fun _ => rfl, rfl,
    fun _ => rfl, rfl, hc, hd, ?_, ?_, ?_⟩
  · intro d d' s; rw [hc d s]; rfl
  · intro d s; rw [hd s]; rfl
  · intro d s; rw [hc d s]; rfl

/-- C9: get_abandoned_commits_from_import returns the empty commit id list for
every statistics value, in particular one counting abandoned commits. -/
theorem abandoned_commits_from_import_empty :
    (∀ stats : FfiGitImportStats, get_abandoned_commits_from_import stats = []) ∧
    get_abandoned_commits_from_import ⟨5, 0, 0, 0⟩ = [] :=
  ⟨fun _ => rfl, rfl⟩

/-- C2 counterexample: on a snapshot whose index holds no commits, a
create_empty_commit request whose single parent "aa" is valid hex but does
not resolve in the snapshot does not fail with InvalidArgument — the facade
never consults the snapshot for parents and here succeeds outright, so the
claim as stated is false at this input. -/
theorem create_empty_commit_unresolved_parent_cex :
    (¬ [170] ∈ repoA.commits) ∧
    nc0.parent_ids = [⟨"aa"⟩] ∧
    (FfiTransaction.create_empty_commit nc0 (some txA)).1 =
      .ok ⟨⟨"01"⟩, ⟨"zx"⟩, "d", sig0, sig0, [⟨"aa"⟩], false⟩ := by
  refine ⟨?_, rfl, rfl⟩
  simp [repoA]

/-- C2 as amended: create_empty_commit fails with InvalidArgument exactly when
the supplied parent list is empty or some supplied parent id is not valid
hex; a valid-hex parent list is passed to the store unchecked, a store write
failure surfacing as a Backend error, and on success the returned commit's
parent_ids are the supplied ids in canonical lowercase hex. -/
theorem create_empty_commit_argument_checks :
    ∀ (tx : Tx) (nc : FfiNewCommit),
    (decodeParentIds nc.parent_ids = none →
      (FfiTransaction.create_empty_commit nc (some tx)).1 =
        .error (.InvalidArgument "Invalid parent commit ID")) ∧
    (decodeParentIds nc.parent_ids = some [] →
      (FfiTransaction.create_empty_commit nc (some tx)).1 =
        .error (.InvalidArgument "At least one parent commit ID is required")) ∧
    (∀ ps e, decodeParentIds nc.parent_ids = some ps → ps ≠ [] →
      tx.repo.writeCommit ⟨ps, nc.description, chosenAuthor tx.repo nc⟩ = .error e →
      (FfiTransaction.create_empty_commit nc (some tx)).1 = .error (.Backend e)) ∧
    (∀ ps w, decodeParentIds nc.parent_ids = some ps → ps ≠ [] →
      tx.repo.writeCommit ⟨ps, nc.description, chosenAuthor tx.repo nc⟩ = .ok w →
      ∃ c, (FfiTransaction.create_empty_commit nc (some tx)).1 = .ok c ∧
        c.parent_ids = ps.map (fun id => ⟨hexEncode id⟩)) := by
  intro tx nc
  refine ⟨?_, ?_, ?_, ?_⟩
  · intro h
    simp [FfiTransaction.create_empty_commit, withTxMut, create_empty_commit_inner, h]
  · intro h
    simp [FfiTransaction.create_empty_commit, withTxMut, create_empty_commit_inner, h]
  · intro ps e hps hne hw
    have hemp : ps.isEmpty = false := by
      cases ps with
      | nil => exact absurd rfl hne
      | cons a l => rfl
    simp [FfiTransaction.create_empty_commit, withTxMut, create_empty_commit_inner, hps, hemp, hw]
  · intro ps w hps hne hw
    have hemp : ps.isEmpty = false := by
      cases ps with
      | nil => exact absurd rfl hne
      | cons a l => rfl
    refine ⟨FfiCommit.of ⟨w.newId, w.newChangeId, nc.description, chosenAuthor tx.repo nc,
      w.committer, ps, false⟩, ?_, ?_⟩
    · simp [FfiTransaction.create_empty_commit, withTxMut, create_empty_commit_inner, hps, hemp, hw]
    · rfl

/-- Witness for the amended C2: the success case at the concrete fixture,
parent hex "aa" decoding to the byte 0xaa and coming back as "aa". -/
theorem create_empty_commit_argument_checks_witness :
    decodeParentIds nc0.parent_ids = some [[170]] ∧
    ([[170]] : List CommitId) ≠ [] ∧
    txA.repo.writeCommit ⟨[[170]], nc0.description, chosenAuthor txA.repo nc0⟩ = .ok ⟨[1], [2], sig0⟩ ∧
    (∃ c, (FfiTransaction.create_empty_commit nc0 (some txA)).1 = .ok c ∧
      c.parent_ids = ([[170]] : List CommitId).map (fun id => ⟨hexEncode id⟩)) :=
  ⟨rfl, by simp, rfl,
    (create_empty_commit_argument_checks txA nc0).2.2.2 [[170]] ⟨[1], [2], sig0⟩ rfl (by simp) rfl⟩

/-- C3 counterexample: failures of the parse, resolve and evaluate phases are
all reported with the same Revset error kind — the phases do not carry
distinct kinds, only distinct messages, so the claim's distinct-kind part is
false at these inputs. -/
theorem revset_phase_kinds_cex :
    evaluate_revset engP "x" = .error (.Revset "syntax error at 1") ∧
    evaluate_revset engR "x" = .error (.Revset "symbol not found") ∧
    evaluate_revset engE "x" = .error (.Revset "evaluation failed") ∧
    errKindIdx (evaluate_revset engP "x") = errKindIdx (evaluate_revset engR "x") ∧
    errKindIdx (evaluate_revset engR "x") = errKindIdx (evaluate_revset engE "x") :=
  ⟨rfl, rfl, rfl, rfl, rfl⟩

/-- C3 as amended: parse, resolve and evaluate run strictly in that order; a
failing phase short-circuits — the result does not depend on the phases
after it — and each phase's failure is reported as the single Revset error
kind carrying that phase's message, rather than a kind distinct per phase. -/
theorem revset_phases_ordered :
    (∀ (p : String → Except String RevsetExpression) r1 v1 r2 v2 s m,
      p s = .error m →
      evaluate_revset ⟨p, r1, v1⟩ s = .error (.Revset m) ∧
      evaluate_revset ⟨p, r1, v1⟩ s = evaluate_revset ⟨p, r2, v2⟩ s) ∧
    (∀ p rsv v1 v2 s e m, p s = .ok e → rsv e = .error m →
      evaluate_revset ⟨p, rsv, v1⟩ s = .error (.Revset m) ∧
      evaluate_revset ⟨p, rsv, v1⟩ s = evaluate_revset ⟨p, rsv, v2⟩ s) ∧
    (∀ p rsv v s e re m, p s = .ok e → rsv e = .ok re → v re = .error m →
      evaluate_revset ⟨p, rsv, v⟩ s = .error (.Revset m)) ∧
    (∀ p rsv v s e re ids, p s = .ok e → rsv e = .ok re → v re = .ok ids →
      evaluate_revset ⟨p, rsv, v⟩ s = .ok (ids.map (fun i => ⟨hexEncode i⟩))) := by
  refine ⟨?_, ?_, ?_, ?_⟩
  · intro p r1 v1 r2 v2 s m h
    constructor <;> simp [evaluate_revset, h]
  · intro p rsv v1 v2 s e m hp hr
    constructor <;> simp [evaluate_revset, hp, hr]
  · intro p rsv v s e re m hp hr hv
    simp [evaluate_revset, hp, hr, hv]
  · intro p rsv v s e re ids hp hr hv
    simp [evaluate_revset, hp, hr, hv]

/-- Witness for the amended C3: the parse-failing engine at the input "x". -/
theorem revset_phases_ordered_witness :
    engP.parse "x" = .error "syntax error at 1" ∧
    evaluate_revset engP "x" = .error (.Revset "syntax error at 1") :=
  ⟨rfl,
    (revset_phases_ordered.1 engP.parse engP.resolve engP.evaluate
      engR.resolve engR.evaluate "x" "syntax error at 1" rfl).1⟩

/-- C4: for a syntactically valid hex prefix, resolve_commit_prefix lands in
exactly one of the three outcomes — the three result forms below are built
from distinct constructors, so at most one can hold, and the function is
deterministic — and in the single-match outcome the given prefix text heads
the returned id's hex form. -/
theorem resolveCommitPfx_classification :
    ∀ (r : RepoModel) (p : String), isValidHexPfx p = true →
    resolveCommitPfx r p = .error (.CommitNotFound p) ∨
    (∃ id, resolveCommitPfx r p = .ok [⟨hexEncode id⟩] ∧
      p.isPrefixOf (hexEncode id) = true) ∨
    resolveCommitPfx r p = .error (.InvalidArgument ("Ambiguous commit prefix: " ++ p)) := by
  intro r p hv
  rcases hL : pfxMatches r p with _ | ⟨id, _ | ⟨b, t⟩⟩
  · left
    simp [resolveCommitPfx, hv, resolveCommitIdPfx, hL]
  · right; left
    refine ⟨id, ?_, ?_⟩
    · simp [resolveCommitPfx, hv, resolveCommitIdPfx, hL]
    · have hmem : id ∈ pfxMatches r p := by
        rw [hL]; exact List.mem_singleton_self id
      exact (List.mem_filter.mp hmem).2
  · right; right
    simp [resolveCommitPfx, hv, resolveCommitIdPfx, hL]

/-- Witness for C4: the one-commit snapshot repoB resolves the valid prefix
"a" to its single commit 0xaa. -/
theorem resolveCommitPfx_classification_witness :
    isValidHexPfx "a" = true ∧
    (resolveCommitPfx repoB "a" = .error (.CommitNotFound "a") ∨
     (∃ id, resolveCommitPfx repoB "a" = .ok [⟨hexEncode id⟩] ∧
       "a".isPrefixOf (hexEncode id) = true) ∨
     resolveCommitPfx repoB "a" = .error (.InvalidArgument ("Ambiguous commit prefix: " ++ "a"))) :=
  ⟨rfl, resolveCommitPfx_classification repoB "a" rfl⟩

/-- C8: resolve_change_id on a decodable change id returns CommitNotFound
exactly when the id has no live commits, and otherwise the full, possibly
plural, set of live commit ids in hex form. -/
theorem resolve_change_id_classification :
    ∀ (r : RepoModel) (cid : FfiChangeId) (id : ChangeId),
    reverseHexDecode cid.hex = some id →
    ((r.changeIdLive id = [] ∧
      resolve_change_id r cid = .error (.CommitNotFound cid.hex)) ∨
     (r.changeIdLive id ≠ [] ∧
      resolve_change_id r cid = .ok ((r.changeIdLive id).map (fun i => ⟨hexEncode i⟩)))) := by
  intro r cid id h
  rcases hl : r.changeIdLive id with _ | ⟨x, xs⟩
  · left
    exact ⟨rfl, by simp [resolve_change_id, RepoModel.resolveChangeId, h, hl]⟩
  · right
    refine ⟨by simp, ?_⟩
    simp [resolve_change_id, RepoModel.resolveChangeId, h, hl]

/-- Witness for C8: the change id written "zz" (byte 0) has one live commit in
repoC and resolves to its hex form. -/
theorem resolve_change_id_classification_witness :
    reverseHexDecode (FfiChangeId.mk "zz").hex = some [0] ∧
    ((repoC.changeIdLive [0] = [] ∧
      resolve_change_id repoC ⟨"zz"⟩ = .error (.CommitNotFound (FfiChangeId.mk "zz").hex)) ∨
     (repoC.changeIdLive [0] ≠ [] ∧
      resolve_change_id repoC ⟨"zz"⟩ =
        .ok ((repoC.changeIdLive [0]).map (fun i => ⟨hexEncode i⟩)))) :=
  ⟨rfl, resolve_change_id_classification repoC ⟨"zz"⟩ [0] rfl⟩

/-- C7: the branch expression fetch builds selects every branch for an empty
pattern list; otherwise it selects by union over the patterns, where a
pattern containing the wildcard token selects by its compiled glob, falls
back to exact text when glob compilation fails, and a wildcard-free pattern
selects by exact text. -/
theorem fetch_branch_pattern_matching :
    (∀ (gc : String → Option Glob) (name : String),
      (buildBranchExpr gc []).sel name = true) ∧
    (∀ (gc : String → Option Glob) (pats : List String) (name : String), pats ≠ [] →
      ((buildBranchExpr gc pats).sel name = true ↔
        ∃ p ∈ pats, (toPatternM gc p).sel name = true)) ∧
    (∀ (gc : String → Option Glob) (p name : String) (g : Glob),
      p.data.contains '*' = true → gc p = some g →
      (toPatternM gc p).sel name = g name) ∧
    (∀ (gc : String → Option Glob) (p name : String),
      p.data.contains '*' = true → gc p = none →
      (toPatternM gc p).sel name = (p == name)) ∧
    (∀ (gc : String → Option Glob) (p name : String),
      p.data.contains '*' = false →
      (toPatternM gc p).sel name = (p == name)) := by
  refine ⟨fun gc name => rfl, ?_, ?_, ?_, ?_⟩
  · intro gc pats name hne
    cases pats with
    | nil => exact absurd rfl hne
    | cons p ps =>
      simp [buildBranchExpr, StringExpr.sel, List.any_eq_true, List.mem_map,
        exists_exists_and_eq_and]
  · intro gc p name g hw hg
    unfold toPatternM
    rw [hw]
    simp [hg, StringPatternM.sel]
  · intro gc p name hw hg
    unfold toPatternM
    rw [hw]
    simp [hg, StringPatternM.sel]
  · intro gc p name hw
    unfold toPatternM
    rw [hw]
    simp [StringPatternM.sel]

/-- Witness for C7: the glob-compiling case at the concrete pattern "re*" and
branch "release". -/
theorem fetch_branch_pattern_matching_witness :
    "re*".data.contains '*' = true ∧
    gc0 "re*" = some glob0 ∧
    (toPatternM gc0 "re*").sel "release" = glob0 "release" :=
  ⟨rfl, rfl, fetch_branch_pattern_matching.2.2.1 gc0 "re*" "release" glob0 rfl rfl⟩

/-- C10: the commit builder's author is the caller's signature exactly when
both author_name and author_email are supplied (the timestamp defaulting to
the clock when absent); with only one of the two supplied — or neither —
the supplied pieces and any timestamp are ignored for the settings default;
and a successful create_empty_commit stamps that chosen author. -/
theorem create_empty_commit_author_selection :
    (∀ (r : RepoModel) (nc : FfiNewCommit) (n : String),
      nc.author_name = some n → nc.author_email = none →
      chosenAuthor r nc = r.defaultAuthor) ∧
    (∀ (r : RepoModel) (nc : FfiNewCommit) (e : String),
      nc.author_name = none → nc.author_email = some e →
      chosenAuthor r nc = r.defaultAuthor) ∧
    (∀ (r : RepoModel) (nc : FfiNewCommit),
      nc.author_name = none → nc.author_email = none →
      chosenAuthor r nc = r.defaultAuthor) ∧
    (∀ (r : RepoModel) (nc : FfiNewCommit) (n e : String),
      nc.author_name = some n → nc.author_email = some e → nc.author_timestamp = none →
      chosenAuthor r nc = ⟨n, e, r.now⟩) ∧
    (∀ (r : RepoModel) (nc : FfiNewCommit) (n e : String) (t : Timestamp),
      nc.author_name = some n → nc.author_email = some e → nc.author_timestamp = some t →
      chosenAuthor r nc = ⟨n, e, t⟩) ∧
    (∀ (tx : Tx) (nc : FfiNewCommit) (c : FfiCommit) (s2 : FfiTransaction),
      FfiTransaction.create_empty_commit nc (some tx) = (.ok c, s2) →
      c.author = chosenAuthor tx.repo nc) := by
  refine ⟨?_, ?_, ?_, ?_, ?_, ?_⟩
  · intro r nc n h1 h2; simp [chosenAuthor, h1, h2]
  · intro r nc e h1 h2; simp [chosenAuthor, h1, h2]
  · intro r nc h1 h2; simp [chosenAuthor, h1, h2]
  · intro r nc n e h1 h2 h3; simp [chosenAuthor, h1, h2, h3]
  · intro r nc n e t h1 h2 h3; simp [chosenAuthor, h1, h2, h3]
  · intro tx nc c s2 h
    rcases hd : decodeParentIds nc.parent_ids with _ | ps
    · simp [FfiTransaction.create_empty_commit, withTxMut, create_empty_commit_inner, hd] at h
    · rcases hemp : ps.isEmpty with _ | _
      · rcases hw : tx.repo.writeCommit ⟨ps, nc.description, chosenAuthor tx.repo nc⟩ with e | w
        · simp [FfiTransaction.create_empty_commit, withTxMut, create_empty_commit_inner,
            hd, hemp, hw] at h
        · have : c = FfiCommit.of ⟨w.newId, w.newChangeId, nc.description,
              chosenAuthor tx.repo nc, w.committer, ps, false⟩ := by
            simp [FfiTransaction.create_empty_commit, withTxMut, create_empty_commit_inner,
              hd, hemp, hw] at h
            exact h.1.symm
          rw [this]
          rfl
      · simp [FfiTransaction.create_empty_commit, withTxMut, create_empty_commit_inner,
          hd, hemp] at h

/-- Witness for C10: a name without an email (and a stray timestamp) is
ignored for the settings default author. -/
theorem create_empty_commit_author_selection_witness :
    (FfiNewCommit.mk [] "" (some "x") none (some ⟨7, 0⟩)).author_name = some "x" ∧
    (FfiNewCommit.mk [] "" (some "x") none (some ⟨7, 0⟩)).author_email = none ∧
    chosenAuthor repoA ⟨[], "", some "x", none, some ⟨7, 0⟩⟩ = repoA.defaultAuthor :=
  ⟨rfl, rfl,
    create_empty_commit_author_selection.1 repoA ⟨[], "", some "x", none, some ⟨7, 0⟩⟩ "x" rfl rfl⟩

/-- C6: an empty revision list makes evaluate_log run the all-visible default
expression (which the engine instance evaluates to the visible set); a
supplied list is parsed and folded into a union in the order given; and the
list ["a", "b"] produces the same result — hence the same commit set — as
the single expression "a | b". -/
theorem log_revisions_union :
    (∀ (eng : RevsetEngine) (r : RepoModel) (lim : Int) (rev : Bool),
      evaluate_log eng r ⟨[], lim, rev⟩ = evaluate_log_expr eng r lim rev .all) ∧
    (∀ r : RepoModel, resolveModel r .all = .ok .all ∧ evalModel r .all = r.visible) ∧
    (∀ (eng : RevsetEngine) (s t : String) (e f : RevsetExpression),
      eng.parse s = .ok e → eng.parse t = .ok f →
      buildRevsetExpr eng [s, t] = .ok (.union e f)) ∧
    (∀ (eng : RevsetEngine) (revs : List String) (e : RevsetExpression)
      (es : List RevsetExpression),
      parseAllRevs eng revs = .ok (e :: es) →
      buildRevsetExpr eng revs = .ok (unionReduce e es)) ∧
    (∀ (r : RepoModel) (lim : Int) (rev : Bool),
      evaluate_log (specEngine r) r ⟨["a", "b"], lim, rev⟩ =
        evaluate_log (specEngine r) r ⟨["a | b"], lim, rev⟩) := by
  refine ⟨fun eng r lim rev => rfl, fun r => ⟨rfl, rfl⟩, ?_, ?_, ?_⟩
  · intro eng s t e f h1 h2
    simp [buildRevsetExpr, parseAllRevs, h1, h2, unionReduce]
  · intro eng revs e es h
    cases revs with
    | nil => exact absurd h (by simp [parseAllRevs])
    | cons s ss => simp [buildRevsetExpr, h]
  · intro r lim rev
    have hA : buildRevsetExpr (specEngine r) ["a", "b"] =
        .ok (.union (.symbol "a") (.symbol "b")) := rfl
    have hB : buildRevsetExpr (specEngine r) ["a | b"] =
        .ok (.union (.symbol "a") (.symbol "b")) := rfl
    simp only [evaluate_log, hA, hB]

/-- Witness for C6: both engine parses succeed on the concrete revisions "a"
and "b", and the built expression is their union in order. -/
theorem log_revisions_union_witness :
    (specEngine repoC).parse "a" = .ok (.symbol "a") ∧
    (specEngine repoC).parse "b" = .ok (.symbol "b") ∧
    buildRevsetExpr (specEngine repoC) ["a", "b"] =
      .ok (.union (.symbol "a") (.symbol "b")) :=
  ⟨rfl, rfl,
    log_revisions_union.2.2.1 (specEngine repoC) "a" "b" (.symbol "a") (.symbol "b") rfl rfl⟩

theorem collectE_ok_cons {f : α → Except JjError β} {x : α} {xs : List α} {ys : List β}
    (h : collectE f (x :: xs) = .ok ys) :
    ∃ y tl, f x = .ok y ∧ collectE f xs = .ok tl ∧ ys = y :: tl := by
  rcases hx : f x with e | y
  · rw [collectE, hx] at h
    exact absurd h (by simp)
  · rcases ht : collectE f xs with e | tl
    · rw [collectE, hx, ht] at h
      exact absurd h (by simp)
    · rw [collectE, hx, ht] at h
      exact ⟨y, tl, rfl, rfl, by injection h with h2; exact h2.symm⟩

theorem collectE_entry_commits {r : RepoModel} {g : List (CommitId × List GraphEdge)}
    {es : List FfiLogEntry} (h : collectE (entryOf r) g = .ok es) :
    collectE (entryCommit r) (g.map Prod.fst) = .ok (es.map (fun en => en.commit)) := by
  induction g generalizing es with
  | nil =>
    rw [collectE] at h
    injection h with h2
    rw [← h2]
    rfl
  | cons p ps ih =>
    obtain ⟨y, tl, hy, htl, hes⟩ := collectE_ok_cons h
    rcases hg : r.getCommit p.1 with e | cm
    · rw [entryOf, hg] at hy
      exact absurd hy (by simp)
    · rw [entryOf, hg] at hy
      injection hy with hy2
      subst hes
      have ihh := ih htl
      simp only [List.map_cons, collectE, entryCommit, hg, ihh, ← hy2]

theorem collectE_append {f : α → Except JjError β} {l1 l2 : List α} {a b : List β}
    (h1 : collectE f l1 = .ok a) (h2 : collectE f l2 = .ok b) :
    collectE f (l1 ++ l2) = .ok (a ++ b) := by
  induction l1 generalizing a with
  | nil =>
    rw [collectE] at h1
    injection h1 with h12
    rw [← h12]
    simpa using h2
  | cons x xs ih =>
    obtain ⟨y, tl, hy, htl, hes⟩ := collectE_ok_cons h1
    subst hes
    simp only [List.cons_append, collectE, hy, List.append_eq, ih htl]

theorem collectE_reverse {f : α → Except JjError β} {l : List α} {ys : List β}
    (h : collectE f l = .ok ys) : collectE f l.reverse = .ok ys.reverse := by
  induction l generalizing ys with
  | nil =>
    rw [collectE] at h
    injection h with h2
    rw [← h2]
    rfl
  | cons x xs ih =>
    obtain ⟨y, tl, hy, htl, hes⟩ := collectE_ok_cons h
    subst hes
    rw [List.reverse_cons, List.reverse_cons]
    exact collectE_append (ih htl) (by simp [collectE, hy])

theorem collectE_entry_lift {r : RepoModel} {cs : List FfiCommit}
    (g2 : List (CommitId × List GraphEdge))
    (h : collectE (entryCommit r) (g2.map Prod.fst) = .ok cs) :
    ∃ es2, collectE (entryOf r) g2 = .ok es2 ∧ es2.map (fun en => en.commit) = cs := by
  induction g2 generalizing cs with
  | nil =>
    rw [List.map_nil, collectE] at h
    injection h with h2
    exact ⟨[], rfl, by rw [← h2]; rfl⟩
  | cons p ps ih =>
    rw [List.map_cons] at h
    obtain ⟨y, tl, hy, htl, hes⟩ := collectE_ok_cons h
    rcases hg : r.getCommit p.1 with e | cm
    · rw [entryCommit, hg] at hy
      exact absurd hy (by simp)
    · rw [entryCommit, hg] at hy
      injection hy with hy2
      obtain ⟨es2, hcol, hmap⟩ := ih htl
      refine ⟨⟨FfiCommit.of cm, p.2.map FfiGraphEdge.of⟩ :: es2, ?_, ?_⟩
      · simp only [collectE, entryOf, hg, hcol]
      · subst hes
        simp only [List.map_cons, hmap, hy2]

theorem reverseGraph_fst (g : List (CommitId × List GraphEdge)) :
    (reverseGraph g).map Prod.fst = (g.map Prod.fst).reverse := by
  simp [reverseGraph, List.map_map, Function.comp, List.map_reverse]

theorem evaluate_log_expr_rev {eng : RevsetEngine} {r : RepoModel} {lim : Int}
    {expr : RevsetExpression} {es : List FfiLogEntry}
    (h : evaluate_log_expr eng r lim false expr = .ok ⟨es⟩) :
    ∃ rs, evaluate_log_expr eng r lim true expr = .ok ⟨rs⟩ ∧
      rs.map (fun en => en.commit) = (es.map (fun en => en.commit)).reverse := by
  rcases hrv : eng.resolve expr with m | rex
  · simp [evaluate_log_expr, hrv] at h
  · rcases hev : eng.evaluate rex with m | ids
    · simp [evaluate_log_expr, hrv, hev] at h
    · rcases hc : collectE (entryOf r) (applyLimit lim (r.graphOf ids)) with e | es2
      · simp [evaluate_log_expr, hrv, hev, hc] at h
      · have hes : es2 = es := by
          simp [evaluate_log_expr, hrv, hev, hc] at h
          exact h
        subst hes
        have h1 := collectE_entry_commits hc
        have h2 := collectE_reverse h1
        rw [← reverseGraph_fst (applyLimit lim (r.graphOf ids))] at h2
        obtain ⟨rs, hcol, hmap⟩ := collectE_entry_lift _ h2
        refine ⟨rs, ?_, hmap⟩
        simp [evaluate_log_expr, hrv, hev, hcol]

/-- C5: on the same input with no limit, if the non-reversed log succeeds with
entries es then the reversed log succeeds, and its commit id sequence is
exactly the end-to-end reversal of es's, so the commit set and the entry
count match; the reversed branch materialises the grouped sequence and
inverts it before building entries. -/
theorem log_reversal_inversion :
    ∀ (eng : RevsetEngine) (r : RepoModel) (revs : List String) (lim : Int)
      (es : List FfiLogEntry),
    lim < 0 →
    evaluate_log eng r ⟨revs, lim, false⟩ = .ok ⟨es⟩ →
    ∃ rs : List FfiLogEntry,
      evaluate_log eng r ⟨revs, lim, true⟩ = .ok ⟨rs⟩ ∧
      rs.map (fun en => en.commit.id) = (es.map (fun en => en.commit.id)).reverse ∧
      rs.length = es.length := by
  intro eng r revs lim es _ h
  rcases hb : buildRevsetExpr eng revs with e | expr
  · rw [show evaluate_log eng r ⟨revs, lim, false⟩ =
      (match buildRevsetExpr eng revs with
       | .error e => .error e
       | .ok expr => evaluate_log_expr eng r lim false expr) from rfl, hb] at h
    exact absurd h (by simp)
  · rw [show evaluate_log eng r ⟨revs, lim, false⟩ =
      (match buildRevsetExpr eng revs with
       | .error e => .error e
       | .ok expr => evaluate_log_expr eng r lim false expr) from rfl, hb] at h
    obtain ⟨rs, hcol, hmap⟩ := evaluate_log_expr_rev h
    refine ⟨rs, ?_, ?_, ?_⟩
    · rw [show evaluate_log eng r ⟨revs, lim, true⟩ =
        (match buildRevsetExpr eng revs with
         | .error e => .error e
         | .ok expr => evaluate_log_expr eng r lim true expr) from rfl, hb]
      exact hcol
    · have hstep : rs.map (fun en => en.commit.id) =
          (rs.map (fun en => en.commit)).map (fun c => c.id) := by
        simp [List.map_map, Function.comp]
      rw [hstep, hmap, ← List.map_reverse]
      simp [List.map_map, Function.comp]
    · have hlen := congrArg List.length hmap
      simpa using hlen

/-- Witness for C5: the two-commit snapshot's unlimited log reverses from
[01, 02] to [02, 01]. -/
theorem log_reversal_inversion_witness :
    ((-1 : Int) < 0) ∧
    evaluate_log (specEngine repoC) repoC ⟨[], -1, false⟩ = .ok ⟨[entA, entB]⟩ ∧
    (∃ rs : List FfiLogEntry,
      evaluate_log (specEngine repoC) repoC ⟨[], -1, true⟩ = .ok ⟨rs⟩ ∧
      rs.map (fun en => en.commit.id) = ([entA, entB].map (fun en => en.commit.id)).reverse ∧
      rs.length = [entA, entB].length) :=
  ⟨by norm_num, rfl,
    log_reversal_inversion (specEngine repoC) repoC [] (-1) [entA, entB] (by norm_num) rfl⟩
